import Mathlib

/-!
Shallow embedding of the SimChallenge Monte Carlo investment-game engine.

The repository simulates a repeated binary-outcome betting game:
* `single_simulation.py` / `single_sim_plot.py` / `multiple_simulations.py`
  implement the full-stake variant (heads: balance × 1.5, tails: balance × 0.6);
* `modified_strategy_simulations.py` implements the partial-stake variant
  (bet 50% of the balance; heads: bet × 1.5, tails: bet × 0.6; new balance =
  unbet half + bet outcome).

Balances are modelled as exact rationals (`ℚ`); the Python floats 1.5, 0.6,
0.5 are the rationals 3/2, 3/5, 1/2.  The randomness source
(`np.random.binomial(1, 0.5)` draws from the globally seeded stream) is
modelled as a function `rng : Nat → Bool` giving the outcome of the i-th draw
of the process-wide stream; the runner's trial `sim` consumes draws
`sim*years, …, sim*years + years - 1`, matching the sequential advancement of
the global generator (each trial draws exactly `years` times).

`np.mean` / `np.median` / `np.std` on an empty array return IEEE NaN (with
only a runtime warning); this is modelled by the `NFloat` type with an
explicit `nan` constructor.  `np.std`'s square root has no exact rational
counterpart, so it is parameterised by the square-root routine `sqrtFn`; the
claims about it do not depend on that routine.
-/

namespace SimChallenge

/-- Global parameter `age_start = 25` of all four scripts. -/
def age_start : Nat := 25

/-- Global parameter `age_end = 55`. -/
def age_end : Nat := 55

/-- `years = age_end - age_start` (= 30). -/
def years : Nat := age_end - age_start

/-- Global parameter `initial_balance = 1000`. -/
def initial_balance : ℚ := 1000

/-- Global parameter `n_simulations = 100`. -/
def n_simulations : Nat := 100

/-- One period step of the full-stake engine
(`multiple_simulations.py` lines 37–40, identically in `single_simulation.py`
and `single_sim_plot.py`): heads multiplies the balance by 1.5, tails by
0.6. -/
def fullStep (balance : ℚ) (coin_flip : Bool) : ℚ :=
  if coin_flip then balance * (3/2) else balance * (3/5)

/-- One period step of the partial-stake engine
(`modified_strategy_simulations.py` lines 36–52): bet half the balance,
heads multiplies the bet by 1.5, tails by 0.6; the new balance is the unbet
half plus the bet outcome. -/
def modifiedStep (balance : ℚ) (coin_flip : Bool) : ℚ :=
  let bet_amount := balance * (1/2)
  let unbet_amount := balance * (1/2)
  let bet_outcome := if coin_flip then bet_amount * (3/2) else bet_amount * (3/5)
  unbet_amount + bet_outcome

/-- The coin flips drawn by one trial: the loop `for year in range(years)`
draws `rng pos, rng (pos+1), …`, appending each to `coin_flips`. -/
def simFlips (rng : Nat → Bool) : Nat → Nat → List Bool
  | _, 0 => []
  | pos, yrs + 1 => rng pos :: simFlips rng (pos + 1) yrs

/-- The trajectory (`path`) of one trial: starts at `[initial]` and appends
the updated balance after every flip, so it lists the balances
`initial, b₁, …, b_yrs` in order. -/
def simPath (step : ℚ → Bool → ℚ) (rng : Nat → Bool) : Nat → ℚ → Nat → List ℚ
  | _, balance, 0 => [balance]
  | pos, balance, yrs + 1 =>
      balance :: simPath step rng (pos + 1) (step balance (rng pos)) yrs

/-- The final balance of one trial (`path[-1]`). -/
def finalBalance (step : ℚ → Bool → ℚ) (rng : Nat → Bool) : Nat → ℚ → Nat → ℚ
  | _, balance, 0 => balance
  | pos, balance, yrs + 1 =>
      finalBalance step rng (pos + 1) (step balance (rng pos)) yrs

/-- The `ages` list of one trial: `[age_start, age_start+1, …, age_start+yrs]`. -/
def simAges (yrs : Nat) : List Nat :=
  (List.range (yrs + 1)).map (fun j => age_start + j)

/-- Python `sum(flips)` where flips are the 0/1 coin flips: the heads count. -/
def headsCount (flips : List Bool) : Nat :=
  (flips.map (fun b => if b then 1 else 0)).sum

/-- One entry of `all_paths` (`multiple_simulations.py` lines 57–64,
identically `modified_strategy_simulations.py` lines 69–76). -/
structure Trial where
  simulation : Nat
  ages : List Nat
  balances : List ℚ
  final_balance : ℚ
  heads_count : Nat
  tails_count : Nat
deriving DecidableEq

/-- The Trial Result recorded for trial number `sim` (0-based loop index):
the dict appended to `all_paths`. -/
def mkTrial (step : ℚ → Bool → ℚ) (rng : Nat → Bool) (yrs : Nat) (initial : ℚ)
    (sim : Nat) : Trial :=
  let path := simPath step rng (sim * yrs) initial yrs
  let flips := simFlips rng (sim * yrs) yrs
  { simulation := sim + 1
    ages := simAges yrs
    balances := path
    final_balance := path.getLastD 0
    heads_count := headsCount flips
    tails_count := flips.length - headsCount flips }

/-- The trial-runner loop shared by `run_multiple_simulations` and
`run_modified_simulations`: runs `n_sims` independent trials off the shared
stream and collects `(final_balances, all_paths)`. -/
def runSims (step : ℚ → Bool → ℚ) (rng : Nat → Bool) (n_sims : Nat)
    (initial : ℚ) (yrs : Nat) : List ℚ × List Trial :=
  let trials := (List.range n_sims).map (mkTrial step rng yrs initial)
  (trials.map (·.final_balance), trials)

/-- `run_multiple_simulations` of `multiple_simulations.py` (full stake). -/
def run_multiple_simulations (rng : Nat → Bool) (n_sims : Nat) (initial : ℚ)
    (yrs : Nat) : List ℚ × List Trial :=
  runSims fullStep rng n_sims initial yrs

/-- `run_modified_simulations` of `modified_strategy_simulations.py`
(partial stake). -/
def run_modified_simulations (rng : Nat → Bool) (n_sims : Nat) (initial : ℚ)
    (yrs : Nat) : List ℚ × List Trial :=
  runSims modifiedStep rng n_sims initial yrs

/-! ### Helper lemmas on the path generator -/

theorem headsCount_le_length (flips : List Bool) : headsCount flips ≤ flips.length := by
  induction flips with
  | nil => simp [headsCount]
  | cons b rest ih =>
      cases b <;> simp [headsCount] at ih ⊢ <;> omega

theorem simFlips_length (rng : Nat → Bool) (pos yrs : Nat) :
    (simFlips rng pos yrs).length = yrs := by
  induction yrs generalizing pos with
  | zero => rfl
  | succ k ih => simp [simFlips, ih]

theorem simPath_length (step : ℚ → Bool → ℚ) (rng : Nat → Bool) (pos : Nat)
    (balance : ℚ) (yrs : Nat) : (simPath step rng pos balance yrs).length = yrs + 1 := by
  induction yrs generalizing pos balance with
  | zero => rfl
  | succ k ih => simp [simPath, ih]

theorem simPath_ne_nil (step : ℚ → Bool → ℚ) (rng : Nat → Bool) (pos : Nat)
    (balance : ℚ) (yrs : Nat) : simPath step rng pos balance yrs ≠ [] := by
  cases yrs <;> simp [simPath]

theorem simPath_getLast (step : ℚ → Bool → ℚ) (rng : Nat → Bool) (pos : Nat)
    (balance : ℚ) (yrs : Nat) :
    (simPath step rng pos balance yrs).getLastD 0 =
      finalBalance step rng pos balance yrs := by
  induction yrs generalizing pos balance with
  | zero => rfl
  | succ k ih =>
      have hrec : simPath step rng pos balance (k + 1) =
          balance :: simPath step rng (pos + 1) (step balance (rng pos)) k := rfl
      have hfb : finalBalance step rng pos balance (k + 1) =
          finalBalance step rng (pos + 1) (step balance (rng pos)) k := rfl
      rw [hrec, hfb, ← ih (pos + 1) (step balance (rng pos))]
      cases hp : simPath step rng (pos + 1) (step balance (rng pos)) k with
      | nil => exact absurd hp (simPath_ne_nil step rng (pos + 1) (step balance (rng pos)) k)
      | cons a l => simp [List.getLastD_cons]

/-- Multiplicative closed form of the final balance: if the step multiplies
the balance by `w` on heads and by `l` on tails, the final balance is the
initial balance times `w^heads × l^tails`, for every flip stream. -/
theorem finalBalance_closed_form (step : ℚ → Bool → ℚ) (w l : ℚ)
    (hw : ∀ b, step b true = b * w) (hl : ∀ b, step b false = b * l)
    (rng : Nat → Bool) (yrs pos : Nat) (initial : ℚ) :
    finalBalance step rng pos initial yrs =
      initial * w ^ headsCount (simFlips rng pos yrs)
        * l ^ (yrs - headsCount (simFlips rng pos yrs)) := by
  induction yrs generalizing pos initial with
  | zero => simp [finalBalance, simFlips, headsCount]
  | succ k ih =>
      have hle := headsCount_le_length (simFlips rng (pos + 1) k)
      rw [simFlips_length] at hle
      have hcons : simFlips rng pos (k + 1) = rng pos :: simFlips rng (pos + 1) k := rfl
      cases hflip : rng pos with
      | true =>
          have hstep : finalBalance step rng pos initial (k + 1) =
              finalBalance step rng (pos + 1) (initial * w) k := by
            simp [finalBalance, hflip, hw]
          have hH : headsCount (simFlips rng pos (k + 1)) =
              headsCount (simFlips rng (pos + 1) k) + 1 := by
            rw [hcons, hflip]; simp [headsCount]; omega
          rw [hstep, ih, hH]
          have hsub : k + 1 - (headsCount (simFlips rng (pos + 1) k) + 1) =
              k - headsCount (simFlips rng (pos + 1) k) := by omega
          rw [hsub, pow_succ]
          ring
      | false =>
          have hstep : finalBalance step rng pos initial (k + 1) =
              finalBalance step rng (pos + 1) (initial * l) k := by
            simp [finalBalance, hflip, hl]
          have hH : headsCount (simFlips rng pos (k + 1)) =
              headsCount (simFlips rng (pos + 1) k) := by
            rw [hcons, hflip]; simp [headsCount]
          rw [hstep, ih, hH]
          have hsub : k + 1 - headsCount (simFlips rng (pos + 1) k) =
              (k - headsCount (simFlips rng (pos + 1) k)) + 1 := by omega
          rw [hsub, pow_succ]
          ring

theorem modifiedStep_true (b : ℚ) : modifiedStep b true = b * (5/4) := by
  simp [modifiedStep]; ring

theorem modifiedStep_false (b : ℚ) : modifiedStep b false = b * (4/5) := by
  simp [modifiedStep]; ring

theorem fullStep_true (b : ℚ) : fullStep b true = b * (3/2) := by
  simp [fullStep]

theorem fullStep_false (b : ℚ) : fullStep b false = b * (3/5) := by
  simp [fullStep]

/-- Example flip stream drawing heads first and tails ever after. -/
def winLoseRng : Nat → Bool := fun i => i == 0

/-- C2: For the partial-stake engine (stake fraction 1/2), the final balance
after any flip stream with `H` heads among `yrs` flips is
`initial × (5/4)^H × (4/5)^(yrs−H)` — a function of the counts only, hence
independent of the order of the outcomes; and the concrete scenario
initial = 1000, horizon = 2, outcomes = [win, lose] produces the trajectory
[1000, 1250, 1000]. -/
theorem modified_final_balance_closed_form :
    (∀ (rng : Nat → Bool) (pos yrs : Nat) (initial : ℚ),
      finalBalance modifiedStep rng pos initial yrs =
        initial * (5/4) ^ headsCount (simFlips rng pos yrs)
          * (4/5) ^ (yrs - headsCount (simFlips rng pos yrs))) ∧
    simPath modifiedStep winLoseRng 0 1000 2 = [1000, 1250, 1000] := by
  constructor
  · intro rng pos yrs initial
    exact finalBalance_closed_form modifiedStep (5/4) (4/5)
      modifiedStep_true modifiedStep_false rng yrs pos initial
  · show simPath modifiedStep winLoseRng 0 1000 2 = [1000, 1250, 1000]
    norm_num [simPath, modifiedStep, winLoseRng]

/-- C3: For the full-stake engine, the final balance after any flip stream
with `H` heads among `yrs` flips is `initial × (3/2)^H × (3/5)^(yrs−H)` —
independent of the order of the outcomes; and the concrete scenario
initial = 1000, horizon = 2, outcomes = [win, lose] produces the trajectory
[1000, 1500, 900]. -/
theorem full_final_balance_closed_form :
    (∀ (rng : Nat → Bool) (pos yrs : Nat) (initial : ℚ),
      finalBalance fullStep rng pos initial yrs =
        initial * (3/2) ^ headsCount (simFlips rng pos yrs)
          * (3/5) ^ (yrs - headsCount (simFlips rng pos yrs))) ∧
    simPath fullStep winLoseRng 0 1000 2 = [1000, 1500, 900] := by
  constructor
  · intro rng pos yrs initial
    exact finalBalance_closed_form fullStep (3/2) (3/5)
      fullStep_true fullStep_false rng yrs pos initial
  · show simPath fullStep winLoseRng 0 1000 2 = [1000, 1500, 900]
    norm_num [simPath, fullStep, winLoseRng]

/-! ### Aggregate statistics (`multiple_simulations.py` lines 79–83, 183–185;
`modified_strategy_simulations.py` lines 91–95, 199–202) -/

/-- A numpy floating-point result: either a numeric value (modelled exactly
as a rational) or NaN.  `np.mean`/`np.median`/`np.std` of an empty array
produce NaN (emitting only a runtime warning, not an error). -/
inductive NFloat where
  | num : ℚ → NFloat
  | nan : NFloat
deriving DecidableEq

/-- `np.mean`: sum divided by length; NaN on an empty array. -/
def np_mean (xs : List ℚ) : NFloat :=
  if xs.length = 0 then .nan else .num (xs.sum / xs.length)

/-- `np.median`: middle element (odd length) or average of the two middle
elements (even length) of the sorted array; NaN on an empty array. -/
def np_median (xs : List ℚ) : NFloat :=
  if xs.length = 0 then .nan
  else
    let s := xs.mergeSort (fun a b => decide (a ≤ b))
    if xs.length % 2 = 1 then .num (s.getD (xs.length / 2) 0)
    else .num ((s.getD (xs.length / 2 - 1) 0 + s.getD (xs.length / 2) 0) / 2)

/-- `np.std` (population): square root of the mean squared deviation from the
mean.  The square root has no exact rational counterpart, so it is an
explicit parameter `sqrtFn`; on an empty array the inner means are NaN and so
is the result, regardless of `sqrtFn`. -/
def np_std (sqrtFn : ℚ → ℚ) (xs : List ℚ) : NFloat :=
  match np_mean xs with
  | .nan => .nan
  | .num m =>
    match np_mean (xs.map (fun x => (x - m) ^ 2)) with
    | .nan => .nan
    | .num v => .num (sqrtFn v)

/-- `np.array(xs) > t` coerced to 0/1 floats, as consumed by `np.mean`. -/
def indicatorList (p : ℚ → Bool) (xs : List ℚ) : List ℚ :=
  xs.map (fun x => if p x then 1 else 0)

/-- `np.mean(np.array(final_balances) > t)`: the probability-above-threshold
statistic (lines 82–83). -/
def prob_above (xs : List ℚ) (t : ℚ) : NFloat :=
  np_mean (indicatorList (fun x => decide (t < x)) xs)

/-- The aggregate-statistics record computed at lines 79–83 of
`multiple_simulations.py` (and identically lines 91–95 of the modified
script). -/
structure Stats where
  mean_balance : NFloat
  median_balance : NFloat
  std_balance : NFloat
  prob_above_initial : NFloat
  prob_above_10000 : NFloat
deriving DecidableEq

/-- Aggregate Statistics over the final balances; performs no emptiness
check, exactly as the source. -/
def calculate_statistics (sqrtFn : ℚ → ℚ) (initial : ℚ)
    (final_balances : List ℚ) : Stats :=
  { mean_balance := np_mean final_balances
    median_balance := np_median final_balances
    std_balance := np_std sqrtFn final_balances
    prob_above_initial := prob_above final_balances initial
    prob_above_10000 := prob_above final_balances 10000 }

/-- Outcome-category counts of `multiple_simulations.py` lines 183–185:
`profitable_sims = np.sum(balances > initial)`,
`catastrophic_sims = np.sum(balances < 100)`,
`moderate_sims = n_simulations - profitable_sims - catastrophic_sims`
(where `n_simulations` equals the number of final balances). -/
structure CategoryCounts where
  profitable_sims : Nat
  catastrophic_sims : Nat
  moderate_sims : Int
deriving DecidableEq

def categoryCounts (initial : ℚ) (final_balances : List ℚ) : CategoryCounts :=
  let profitable := final_balances.countP (fun b => decide (initial < b))
  let catastrophic := final_balances.countP (fun b => decide (b < 100))
  { profitable_sims := profitable
    catastrophic_sims := catastrophic
    moderate_sims := (final_balances.length : Int) - profitable - catastrophic }

/-- Outcome-category counts of `modified_strategy_simulations.py`
lines 199–202: as `categoryCounts` plus
`high_value_sims = np.sum(balances > 10000)`; `moderate_sims` is still
`n - profitable - catastrophic` (the high-value count is not subtracted). -/
structure ModCategoryCounts where
  profitable_sims : Nat
  high_value_sims : Nat
  catastrophic_sims : Nat
  moderate_sims : Int
deriving DecidableEq

def modCategoryCounts (initial : ℚ) (final_balances : List ℚ) : ModCategoryCounts :=
  let profitable := final_balances.countP (fun b => decide (initial < b))
  let high_value := final_balances.countP (fun b => decide ((10000 : ℚ) < b))
  let catastrophic := final_balances.countP (fun b => decide (b < 100))
  { profitable_sims := profitable
    high_value_sims := high_value
    catastrophic_sims := catastrophic
    moderate_sims := (final_balances.length : Int) - profitable - catastrophic }

/-! ### C1: empty-batch statistics -/

/-- C1 counterexample: on an empty batch (N = 0) the statistics computation
does NOT signal any error — it silently yields NaN for the mean, median,
standard deviation and both threshold probabilities (numpy's empty-array
semantics), refuting the claim that an explicit empty-batch error is
signalled and NaN is never returned. -/
theorem empty_batch_stats_nan_counterexample :
    calculate_statistics id 1000 [] =
      { mean_balance := NFloat.nan, median_balance := NFloat.nan,
        std_balance := NFloat.nan, prob_above_initial := NFloat.nan,
        prob_above_10000 := NFloat.nan } := by
  rfl

/-- C1 (amended): Aggregate Statistics performs no empty-batch check: for
every square-root routine and every initial balance, invoking it on an empty
batch signals no error and returns NaN for mean, median, standard deviation
and both threshold probabilities. -/
theorem empty_batch_stats_all_nan (sqrtFn : ℚ → ℚ) (initial : ℚ) :
    calculate_statistics sqrtFn initial [] =
      { mean_balance := NFloat.nan, median_balance := NFloat.nan,
        std_balance := NFloat.nan, prob_above_initial := NFloat.nan,
        prob_above_10000 := NFloat.nan } := by
  rfl

/-! ### C4: category partition -/

theorem three_way_count (initial : ℚ) (hinit : (100 : ℚ) ≤ initial) (xs : List ℚ) :
    xs.countP (fun b => decide (initial < b)) + xs.countP (fun b => decide (b < 100))
      + xs.countP (fun b => decide ((100 : ℚ) ≤ b ∧ b ≤ initial)) = xs.length := by
  induction xs with
  | nil => simp
  | cons b rest ih =>
      by_cases h1 : initial < b
      · have h2 : ¬ b < 100 := by
          intro hb; exact absurd (lt_of_le_of_lt hinit h1) (not_lt.mpr (le_of_lt hb))
        have h3 : ¬ ((100 : ℚ) ≤ b ∧ b ≤ initial) := fun hc => absurd h1 (not_lt.mpr hc.2)
        simp [List.countP_cons, h1, h2, h3] at ih ⊢
        omega
      · by_cases h2 : b < 100
        · have h3 : ¬ ((100 : ℚ) ≤ b ∧ b ≤ initial) := fun hc => absurd h2 (not_lt.mpr hc.1)
          simp [List.countP_cons, h1, h2, h3] at ih ⊢
          omega
        · have h3 : (100 : ℚ) ≤ b ∧ b ≤ initial := ⟨not_lt.mp h2, not_lt.mp h1⟩
          simp [List.countP_cons, h1, h2, h3] at ih ⊢
          omega

/-- C4 counterexample: for the modified-strategy categories with the
program's thresholds (initial = 1000, high = 10000), the batch consisting of
one final balance 20000 is counted in BOTH the high-value and the profitable
category: the four category counts sum to 2 while the trial count is 1, so
the categories are neither mutually exclusive nor do their counts sum to N. -/
theorem category_partition_counterexample :
    ((modCategoryCounts 1000 [20000]).high_value_sims : Int)
        + ((modCategoryCounts 1000 [20000]).profitable_sims : Int)
        + ((modCategoryCounts 1000 [20000]).catastrophic_sims : Int)
        + (modCategoryCounts 1000 [20000]).moderate_sims = 2
      ∧ ([(20000 : ℚ)].length = 1)
      ∧ ((modCategoryCounts 1000 [20000]).high_value_sims : Int)
          + ((modCategoryCounts 1000 [20000]).profitable_sims : Int)
          + ((modCategoryCounts 1000 [20000]).catastrophic_sims : Int)
          + (modCategoryCounts 1000 [20000]).moderate_sims
          ≠ ([(20000 : ℚ)].length : Int)
      ∧ ((1000 : ℚ) < 20000 ∧ (10000 : ℚ) < 20000) := by
  refine ⟨by decide, by decide, by decide, by norm_num⟩

/-- C4 (amended): in the full-stake aggregation the three categories
profitable (> initial) / near-ruin (< 100) / moderate (in between) are
mutually exclusive and collectively exhaustive whenever the low threshold
100 does not exceed the initial balance, the computed `moderate_sims` equals
the count of in-between trials, and the three counts sum exactly to the
trial count; in the modified-strategy aggregation the extra high-value
category (> 10000) overlaps profitable, and the four counts sum to the trial
count PLUS the high-value count (so they exceed N whenever a trial ends
above 10000). -/
theorem category_partition_amended :
    (∀ (initial : ℚ), (100 : ℚ) ≤ initial →
      (∀ b : ℚ,
        (initial < b ∧ ¬ b < 100 ∧ ¬ ((100 : ℚ) ≤ b ∧ b ≤ initial)) ∨
        (¬ initial < b ∧ b < 100 ∧ ¬ ((100 : ℚ) ≤ b ∧ b ≤ initial)) ∨
        (¬ initial < b ∧ ¬ b < 100 ∧ ((100 : ℚ) ≤ b ∧ b ≤ initial))) ∧
      (∀ xs : List ℚ,
        (categoryCounts initial xs).moderate_sims =
          (xs.countP (fun b => decide ((100 : ℚ) ≤ b ∧ b ≤ initial)) : Int) ∧
        (categoryCounts initial xs).profitable_sims
          + (categoryCounts initial xs).catastrophic_sims
          + xs.countP (fun b => decide ((100 : ℚ) ≤ b ∧ b ≤ initial)) = xs.length)) ∧
    (∀ (initial : ℚ) (xs : List ℚ),
      ((modCategoryCounts initial xs).high_value_sims : Int)
        + ((modCategoryCounts initial xs).profitable_sims : Int)
        + ((modCategoryCounts initial xs).catastrophic_sims : Int)
        + (modCategoryCounts initial xs).moderate_sims
        = (xs.length : Int) + (modCategoryCounts initial xs).high_value_sims) := by
  constructor
  · intro initial hinit
    constructor
    · intro b
      by_cases h1 : initial < b
      · exact Or.inl ⟨h1,
          fun hb => absurd (lt_of_le_of_lt hinit h1) (not_lt.mpr (le_of_lt hb)),
          fun hc => absurd h1 (not_lt.mpr hc.2)⟩
      · by_cases h2 : b < 100
        · exact Or.inr (Or.inl ⟨h1, h2, fun hc => absurd h2 (not_lt.mpr hc.1)⟩)
        · exact Or.inr (Or.inr ⟨h1, h2, not_lt.mp h2, not_lt.mp h1⟩)
    · intro xs
      have hsum := three_way_count initial hinit xs
      constructor
      · simp only [categoryCounts]
        omega
      · simp only [categoryCounts]
        omega
  · intro initial xs
    simp only [modCategoryCounts]
    ring

/-- C4 witness: instantiating the amended partition statement at the
program's initial balance 1000 and the batch [1500, 600, 50]. -/
theorem category_partition_amended_witness :
    ((100 : ℚ) ≤ 1000) ∧
    ((categoryCounts 1000 [1500, 600, 50]).moderate_sims =
        ([(1500 : ℚ), 600, 50].countP
          (fun b => decide ((100 : ℚ) ≤ b ∧ b ≤ 1000)) : Int)) := by
  refine ⟨by norm_num, ?_⟩
  exact ((category_partition_amended.1 1000 (by norm_num)).2 [1500, 600, 50]).1

/-! ### C9: probability above threshold -/

theorem indicator_sum (p : ℚ → Bool) (xs : List ℚ) :
    (indicatorList p xs).sum = (xs.countP p : ℚ) := by
  induction xs with
  | nil => simp [indicatorList]
  | cons b rest ih =>
      cases hb : p b
      · simpa [indicatorList, List.countP_cons, hb] using ih
      · simp [indicatorList, List.countP_cons, hb] at ih ⊢
        rw [ih]
        ring

/-- C9: for every non-empty batch and every threshold, the
probability-above-threshold statistic equals the count of final balances
strictly above the threshold divided by the trial count; and that fraction
multiplied by the trial count equals the profitable-category count when the
threshold is the initial balance. -/
theorem prob_above_eq_count_div :
    (∀ (xs : List ℚ) (t : ℚ), xs ≠ [] →
      prob_above xs t = .num ((xs.countP (fun b => decide (t < b)) : ℚ) / xs.length)) ∧
    (∀ (initial : ℚ) (xs : List ℚ), xs ≠ [] →
      ((xs.countP (fun b => decide (initial < b)) : ℚ) / xs.length) * xs.length
        = ((categoryCounts initial xs).profitable_sims : ℚ)) := by
  constructor
  · intro xs t hne
    have hlen : xs.length ≠ 0 := fun h => hne (List.length_eq_zero.mp h)
    have hlen2 : (indicatorList (fun x => decide (t < x)) xs).length = xs.length := by
      simp [indicatorList]
    rw [prob_above, np_mean, if_neg (by rw [hlen2]; exact hlen), hlen2,
      indicator_sum]
  · intro initial xs hne
    have hlen : (xs.length : ℚ) ≠ 0 := by
      exact_mod_cast fun h => hne (List.length_eq_zero.mp h)
    rw [div_mul_cancel₀ _ hlen]
    rfl

/-- C9 witness: the spec's example batch [1500, 600, 1500] with threshold
1000 has probability 2/3 of exceeding the threshold, and 2/3 × 3 equals the
profitable count 2. -/
theorem prob_above_eq_count_div_witness :
    ([(1500 : ℚ), 600, 1500] ≠ []) ∧
    prob_above [1500, 600, 1500] 1000 = .num (2/3) ∧
    ((2 : ℚ)/3) * 3 = ((categoryCounts 1000 [1500, 600, 1500]).profitable_sims : ℚ) := by
  have hne : [(1500 : ℚ), 600, 1500] ≠ [] := List.cons_ne_nil _ _
  refine ⟨hne, ?_, ?_⟩
  · have h := prob_above_eq_count_div.1 [1500, 600, 1500] 1000 hne
    rw [h]
    norm_num [List.countP_cons, List.countP_nil]
  · have h := prob_above_eq_count_div.2 1000 [1500, 600, 1500] hne
    have hc : (([(1500 : ℚ), 600, 1500].countP
        (fun b => decide ((1000 : ℚ) < b)) : ℚ) / [(1500 : ℚ), 600, 1500].length)
        * [(1500 : ℚ), 600, 1500].length = ((2 : ℚ)/3) * 3 := by
      norm_num [List.countP_cons, List.countP_nil]
    rw [← hc]
    exact h

/-! ### C5: configuration validation -/

/-- C5 counterexample: the runners perform no configuration validation.
With the invalid configuration initial balance = −100 (non-positive) the
full-stake runner still performs simulation work and produces a Trial
Result: the batch contains one trial and its trajectory [−100, −150] shows a
period step was executed. -/
theorem no_validation_counterexample :
    ((-100 : ℚ) ≤ 0) ∧
    (run_multiple_simulations (fun _ => true) 1 (-100) 1).2.length = 1 ∧
    ((run_multiple_simulations (fun _ => true) 1 (-100) 1).2.map (·.balances)) =
      [[-100, -150]] := by
  refine ⟨by norm_num, rfl, ?_⟩
  simp only [run_multiple_simulations, runSims, mkTrial, List.range_succ,
    List.range_zero, List.nil_append, List.map_cons, List.map_nil]
  norm_num [simPath, fullStep]

/-- C5 (amended): neither runner validates its configuration: for EVERY
configuration, including invalid ones (non-positive initial balance, zero
horizon, zero trial count; stake fraction and win probability are hard-coded
and cannot even be passed), both runners return normally with a batch of
exactly `n_sims` Trial Results whose trajectories were fully generated
(`yrs + 1` balances each) — no error is ever reported to the caller. -/
theorem no_validation_amended (rng : Nat → Bool) (n_sims : Nat) (initial : ℚ)
    (yrs : Nat) :
    (run_multiple_simulations rng n_sims initial yrs).2.length = n_sims ∧
    (run_modified_simulations rng n_sims initial yrs).2.length = n_sims ∧
    ((run_multiple_simulations rng n_sims initial yrs).2.map
        (fun t => t.balances.length)) = List.replicate n_sims (yrs + 1) ∧
    ((run_modified_simulations rng n_sims initial yrs).2.map
        (fun t => t.balances.length)) = List.replicate n_sims (yrs + 1) := by
  refine ⟨by simp [run_multiple_simulations, runSims],
          by simp [run_modified_simulations, runSims], ?_, ?_⟩ <;>
  · rw [List.eq_replicate_iff]
    constructor
    · simp [run_multiple_simulations, run_modified_simulations, runSims]
    · intro m hm
      simp only [run_multiple_simulations, run_modified_simulations, runSims,
        List.map_map, List.mem_map, List.mem_range, Function.comp] at hm
      obtain ⟨sim, _, hsim⟩ := hm
      rw [← hsim]
      simp [mkTrial, simPath_length]

/-! ### C6: trial shape invariants -/

theorem mkTrial_shape (step : ℚ → Bool → ℚ) (rng : Nat → Bool) (yrs : Nat)
    (initial : ℚ) (sim : Nat) :
    (mkTrial step rng yrs initial sim).balances.length = yrs + 1 ∧
    (mkTrial step rng yrs initial sim).heads_count
      + (mkTrial step rng yrs initial sim).tails_count = yrs := by
  constructor
  · simp [mkTrial, simPath_length]
  · have h1 := headsCount_le_length (simFlips rng (sim * yrs) yrs)
    have h2 := simFlips_length rng (sim * yrs) yrs
    simp only [mkTrial]
    omega

/-- C6: for every configuration and every trial of either engine variant,
the trajectory contains exactly yrs + 1 balances, the outcome sequence drawn
for a trial contains exactly yrs outcomes, and heads count + tails count
equals yrs. -/
theorem trial_shape_invariants (rng : Nat → Bool) (n_sims : Nat) (initial : ℚ)
    (yrs : Nat) :
    ((run_multiple_simulations rng n_sims initial yrs).2.map
        (fun t => (t.balances.length, t.heads_count + t.tails_count)))
      = List.replicate n_sims (yrs + 1, yrs) ∧
    ((run_modified_simulations rng n_sims initial yrs).2.map
        (fun t => (t.balances.length, t.heads_count + t.tails_count)))
      = List.replicate n_sims (yrs + 1, yrs) ∧
    (∀ pos, (simFlips rng pos yrs).length = yrs) := by
  refine ⟨?_, ?_, fun pos => simFlips_length rng pos yrs⟩ <;>
  · rw [List.eq_replicate_iff]
    constructor
    · simp [run_multiple_simulations, run_modified_simulations, runSims]
    · intro m hm
      simp only [run_multiple_simulations, run_modified_simulations, runSims,
        List.map_map, List.mem_map, List.mem_range, Function.comp] at hm
      obtain ⟨sim, _, hsim⟩ := hm
      rw [← hsim]
      have h := mkTrial_shape fullStep rng yrs initial sim
      have h2 := mkTrial_shape modifiedStep rng yrs initial sim
      simp [h.1, h.2, h2.1, h2.2]

/-! ### C7: reproducibility -/

theorem simFlips_congr (r1 r2 : Nat → Bool) (yrs pos : Nat)
    (h : ∀ i, pos ≤ i → i < pos + yrs → r1 i = r2 i) :
    simFlips r1 pos yrs = simFlips r2 pos yrs := by
  induction yrs generalizing pos with
  | zero => rfl
  | succ k ih =>
      simp only [simFlips, List.cons.injEq]
      exact ⟨h pos le_rfl (by omega),
        ih (pos + 1) (fun i h1 h2 => h i (by omega) (by omega))⟩

theorem simPath_congr (step : ℚ → Bool → ℚ) (r1 r2 : Nat → Bool) (yrs pos : Nat)
    (balance : ℚ) (h : ∀ i, pos ≤ i → i < pos + yrs → r1 i = r2 i) :
    simPath step r1 pos balance yrs = simPath step r2 pos balance yrs := by
  induction yrs generalizing pos balance with
  | zero => rfl
  | succ k ih =>
      simp only [simPath, List.cons.injEq, true_and]
      rw [h pos le_rfl (by omega)]
      exact ih (pos + 1) (step balance (r2 pos))
        (fun i h1 h2 => h i (by omega) (by omega))

theorem runSims_congr (step : ℚ → Bool → ℚ) (r1 r2 : Nat → Bool) (n_sims : Nat)
    (initial : ℚ) (yrs : Nat) (h : ∀ i, i < n_sims * yrs → r1 i = r2 i) :
    runSims step r1 n_sims initial yrs = runSims step r2 n_sims initial yrs := by
  have htrials : (List.range n_sims).map (mkTrial step r1 yrs initial)
      = (List.range n_sims).map (mkTrial step r2 yrs initial) := by
    apply List.map_congr_left
    intro sim hsim
    rw [List.mem_range] at hsim
    have hagree : ∀ i, sim * yrs ≤ i → i < sim * yrs + yrs → r1 i = r2 i := by
      intro i h1 h2
      apply h
      have hmul : (sim + 1) * yrs ≤ n_sims * yrs := Nat.mul_le_mul_right yrs hsim
      have hdist : (sim + 1) * yrs = sim * yrs + yrs := by ring
      omega
    simp only [mkTrial]
    rw [simPath_congr step r1 r2 yrs (sim * yrs) initial hagree,
        simFlips_congr r1 r2 yrs (sim * yrs) hagree]
  simp [runSims, htrials]

/-- C7: the batches are a deterministic function of the configuration and
the randomness stream: two runs of either runner with identical
configuration whose streams agree on the (at most n_sims × yrs) draws
consumed produce identical batches — the same final balances, trajectories
and outcome counts in the same order. -/
theorem runner_deterministic (r1 r2 : Nat → Bool) (n_sims : Nat) (initial : ℚ)
    (yrs : Nat) (h : ∀ i < n_sims * yrs, r1 i = r2 i) :
    run_multiple_simulations r1 n_sims initial yrs
      = run_multiple_simulations r2 n_sims initial yrs ∧
    run_modified_simulations r1 n_sims initial yrs
      = run_modified_simulations r2 n_sims initial yrs :=
  ⟨runSims_congr fullStep r1 r2 n_sims initial yrs h,
   runSims_congr modifiedStep r1 r2 n_sims initial yrs h⟩

/-- C7 witness: two concrete streams agreeing on the single consumed draw
produce the identical one-trial batch. -/
theorem runner_deterministic_witness :
    (∀ i < 1 * 1, (fun _ => true) i = winLoseRng i) ∧
    run_multiple_simulations (fun _ => true) 1 1000 1
      = run_multiple_simulations winLoseRng 1 1000 1 := by
  have h : ∀ i < 1 * 1, (fun _ => true) i = winLoseRng i := by decide
  exact ⟨h, (runner_deterministic (fun _ => true) winLoseRng 1 1000 1 h).1⟩

/-! ### C8: positivity of trajectories -/

theorem simPath_pos (step : ℚ → Bool → ℚ)
    (hstep : ∀ (b : ℚ) (f : Bool), 0 < b → 0 < step b f) (rng : Nat → Bool) :
    ∀ (yrs pos : Nat) (balance : ℚ), 0 < balance →
      ∀ b ∈ simPath step rng pos balance yrs, 0 < b := by
  intro yrs
  induction yrs with
  | zero =>
      intro pos balance hbal b hb
      simp [simPath] at hb
      exact hb ▸ hbal
  | succ k ih =>
      intro pos balance hbal b hb
      simp only [simPath, List.mem_cons] at hb
      rcases hb with rfl | hmem
      · exact hbal
      · exact ih (pos + 1) (step balance (rng pos)) (hstep balance (rng pos) hbal) b hmem

theorem fullStep_pos (b : ℚ) (f : Bool) (hb : 0 < b) : 0 < fullStep b f := by
  cases f <;> simp [fullStep] <;> positivity

theorem modifiedStep_pos (b : ℚ) (f : Bool) (hb : 0 < b) : 0 < modifiedStep b f := by
  cases f
  · rw [modifiedStep_false]; positivity
  · rw [modifiedStep_true]; positivity

/-- C8: started from a strictly positive initial balance, every balance of
every trajectory of both engine variants is strictly positive (hence
non-negative): each period step multiplies the balance by a positive
factor. -/
theorem trajectory_positive (rng : Nat → Bool) (pos yrs : Nat) (initial : ℚ)
    (hinit : 0 < initial) :
    (∀ b ∈ simPath fullStep rng pos initial yrs, 0 < b) ∧
    (∀ b ∈ simPath modifiedStep rng pos initial yrs, 0 < b) :=
  ⟨simPath_pos fullStep fullStep_pos rng yrs pos initial hinit,
   simPath_pos modifiedStep modifiedStep_pos rng yrs pos initial hinit⟩

/-- C8 witness: from the positive initial balance 1000, the balance 600
reached after one losing period of the full-stake engine is positive. -/
theorem trajectory_positive_witness : (0 : ℚ) < 1000 ∧ (0 : ℚ) < 600 := by
  refine ⟨by norm_num, ?_⟩
  refine (trajectory_positive (fun _ => false) 0 1 1000 (by norm_num)).1 600 ?_
  have : simPath fullStep (fun _ => false) 0 1000 1 = [1000, 600] := by
    norm_num [simPath, fullStep]
  rw [this]
  simp

/-! ### C10: recorded trial fields -/

theorem simPath_getLast?_eq (step : ℚ → Bool → ℚ) (rng : Nat → Bool) (pos : Nat)
    (balance : ℚ) (yrs : Nat) :
    (simPath step rng pos balance yrs).getLast? =
      some (finalBalance step rng pos balance yrs) := by
  induction yrs generalizing pos balance with
  | zero => rfl
  | succ k ih =>
      have hrec : simPath step rng pos balance (k + 1) =
          balance :: simPath step rng (pos + 1) (step balance (rng pos)) k := rfl
      have hfb : finalBalance step rng pos balance (k + 1) =
          finalBalance step rng (pos + 1) (step balance (rng pos)) k := rfl
      rw [hrec, hfb, ← ih (pos + 1) (step balance (rng pos))]
      cases hp : simPath step rng (pos + 1) (step balance (rng pos)) k with
      | nil => exact absurd hp (simPath_ne_nil step rng (pos + 1) (step balance (rng pos)) k)
      | cons a l => rw [List.getLast?_cons_cons]

theorem headsCount_eq_count_true (flips : List Bool) :
    headsCount flips = flips.count true := by
  induction flips with
  | nil => rfl
  | cons b rest ih =>
      cases b <;> simp [headsCount, List.count_cons] at ih ⊢ <;> omega

theorem count_true_add_count_false (l : List Bool) :
    l.count true + l.count false = l.length := by
  induction l with
  | nil => rfl
  | cons b rest ih => cases b <;> simp [List.count_cons] <;> omega

/-- C10: every Trial Result of the batch is `mkTrial` at its index, its
recorded final balance is the last balance of its recorded trajectory, and
its recorded heads (win) and tails (lose) counts equal the number of win and
lose outcomes in the trial's drawn outcome sequence. -/
theorem trial_fields_consistent (step : ℚ → Bool → ℚ) (rng : Nat → Bool)
    (n_sims : Nat) (initial : ℚ) (yrs sim : Nat) (h : sim < n_sims) :
    (runSims step rng n_sims initial yrs).2[sim]?
        = some (mkTrial step rng yrs initial sim) ∧
    (mkTrial step rng yrs initial sim).balances.getLast?
        = some (mkTrial step rng yrs initial sim).final_balance ∧
    (mkTrial step rng yrs initial sim).heads_count
        = (simFlips rng (sim * yrs) yrs).count true ∧
    (mkTrial step rng yrs initial sim).tails_count
        = (simFlips rng (sim * yrs) yrs).count false := by
  refine ⟨?_, ?_, ?_, ?_⟩
  · simp [runSims, List.getElem?_map, List.getElem?_range, h]
  · simp only [mkTrial]
    rw [simPath_getLast, simPath_getLast?_eq]
  · simp only [mkTrial]
    exact headsCount_eq_count_true (simFlips rng (sim * yrs) yrs)
  · simp only [mkTrial]
    have h1 := headsCount_eq_count_true (simFlips rng (sim * yrs) yrs)
    have h2 := count_true_add_count_false (simFlips rng (sim * yrs) yrs)
    omega

/-- C10 witness: instantiated at the full-stake engine, one trial, horizon 2,
trial index 0. -/
theorem trial_fields_consistent_witness :
    (0 < 1) ∧
    (mkTrial fullStep winLoseRng 2 1000 0).heads_count
      = (simFlips winLoseRng (0 * 2) 2).count true := by
  exact ⟨by norm_num,
    (trial_fields_consistent fullStep winLoseRng 1 1000 2 0 (by norm_num)).2.2.1⟩

end SimChallenge
